import Mathlib

/-!
Verification of the acquisition pipeline of `eth_videoz.py`: the resumable
download primitive (`download_file`), the access-tier classifier
(`get_series_type`) and the tier bucketing in `main`, the bounded
concurrency runner (`gather_with_concurrency`), per-item media and subtitle
selection (`download_video_subtitles_and_maybe_audio`), and the filename
timestamp format produced by `process_entry`.
-/

namespace EthVideoz

/-! ## Resumable transfer: `download_file` (eth_videoz.py lines 850-952)

The header-negotiation phase of `download_file` is a pure decision on the
existing destination size and the response headers; the streaming phase
either appends the body to the file or overwrites the file with the body,
depending on the chosen open mode. -/

/-- An HTTP response as `download_file` consumes it: status code, the
`Content-Length` header (absent means the code's fallback value 0 is used),
the total size carried by a `Content-Range` header when present, and the
body bytes that would be streamed. -/
structure HttpResponse where
  status : Nat
  contentLength : Option Nat
  contentRangeTotal : Option Nat
  body : List Nat
deriving DecidableEq

/-- File open mode chosen at line 944: `"ab"` (append) or `"wb"`
(truncate/overwrite). -/
inductive FileMode where
  | append
  | truncate
deriving DecidableEq

/-- Outcome of one `download_file` call. -/
inductive DownloadResult where
  | alreadyComplete
  | notSatisfiable
  | fatal (status : Nat)
  | wrote (mode : FileMode) (total : Nat)
deriving DecidableEq

/-- `aiohttp`'s `response.raise_for_status()` raises exactly when the
status is at least 400. -/
def raise_for_status_raises (status : Nat) : Prop := 400 ≤ status

instance (status : Nat) : Decidable (raise_for_status_raises status) :=
  Nat.decLe 400 status

/-- The decision phase of `download_file` (lines 886-944), in source order:
`total_size` is read from `Content-Length` with fallback 0; if
`start_byte >= total_size` the call returns ("File already downloaded");
a 416 status returns; for a status outside {200, 206} the code calls
`raise_for_status`, which raises only for statuses >= 400; then
`total_size` is re-read from `Content-Range` when that header is present,
and the open mode is `"ab"` exactly when `start_byte > 0`, independent of
the response headers. -/
def download_file_step (start_byte : Nat) (resp : HttpResponse) : DownloadResult :=
  if resp.contentLength.getD 0 ≤ start_byte then .alreadyComplete
  else if resp.status = 416 then .notSatisfiable
  else if (resp.status ≠ 200 ∧ resp.status ≠ 206) ∧ raise_for_status_raises resp.status then
    .fatal resp.status
  else
    .wrote (if 0 < start_byte then .append else .truncate)
      (resp.contentRangeTotal.getD (resp.contentLength.getD 0))

/-- `download_file` acting on the destination file, whose current contents
are `file` (so `start_byte = file.length`, lines 860 and 875): in append
mode the body is written after the existing bytes, in truncate mode the
body replaces them; every other outcome leaves the file untouched. -/
def download_file_run (file : List Nat) (resp : HttpResponse) :
    List Nat × DownloadResult :=
  match download_file_step file.length resp with
  | .wrote .append t => (file ++ resp.body, .wrote .append t)
  | .wrote .truncate t => (resp.body, .wrote .truncate t)
  | r => (file, r)

/-- Claim C2 (code bug): a range request was sent (existing destination
holds 1 byte) and the response carries no `Content-Range` (the server
ignored the range and returned a 200 with the full 10-byte body), yet
`download_file` opens the destination in append mode — the full body is
appended onto the partial file, leaving 11 bytes for a 10-byte resource —
where the claim requires truncate/overwrite mode in exactly this case. -/
theorem c2_range_ignored_still_appends :
    download_file_run [7] ⟨200, some 10, none, [0, 1, 2, 3, 4, 5, 6, 7, 8, 9]⟩
      = ([7, 0, 1, 2, 3, 4, 5, 6, 7, 8, 9], .wrote .append 10)
    ∧ ([7, 0, 1, 2, 3, 4, 5, 6, 7, 8, 9] : List Nat).length ≠ 10 := by
  decide

/-- Claim C4, counterexample: the claim says every status outside
{200, 206, 416} raises an error and never silently returns success. But
(a) a 404 response with no `Content-Length` hits the
`start_byte >= total_size` early return first and is reported as "already
downloaded", and (b) a 304 response with a positive `Content-Length`
survives `raise_for_status` (which only raises for statuses >= 400) and
proceeds to stream the body. -/
theorem c4_counterexample :
    download_file_step 0 ⟨404, none, none, []⟩ = .alreadyComplete
    ∧ download_file_step 0 ⟨304, some 10, none, []⟩ = .wrote .truncate 10 := by
  decide

/-- Claim C4 as amended: a response status of at least 400 other than 416
is fatal for the single call — `download_file` raises and does not retry —
provided the declared `Content-Length` exceeds the existing destination
size (otherwise the already-complete early return fires first); statuses
below 400 outside {200, 206} are not treated as errors. -/
theorem c4_amended_fatal (start_byte : Nat) (resp : HttpResponse)
    (hlen : start_byte < resp.contentLength.getD 0)
    (hst : 400 ≤ resp.status) (h416 : resp.status ≠ 416) :
    download_file_step start_byte resp = .fatal resp.status := by
  unfold download_file_step
  rw [if_neg (by omega), if_neg h416, if_pos ⟨⟨by omega, by omega⟩, hst⟩]

/-- Witness for `c4_amended_fatal` at a concrete 500 response. -/
theorem c4_amended_fatal_witness :
    ((0 : Nat) < (HttpResponse.mk 500 (some 10) none []).contentLength.getD 0
      ∧ 400 ≤ (HttpResponse.mk 500 (some 10) none []).status
      ∧ (HttpResponse.mk 500 (some 10) none []).status ≠ 416)
    ∧ download_file_step 0 ⟨500, some 10, none, []⟩ = .fatal 500 :=
  ⟨⟨by decide, by decide, by decide⟩,
    c4_amended_fatal 0 ⟨500, some 10, none, []⟩ (by decide) (by decide) (by decide)⟩

/-- Claim C5: when the destination already holds the full declared total —
its size is at least the response's declared `Content-Length` `T`, as
happens both when the server ignores the resume range and returns the full
body and when it answers the unsatisfiable range — `download_file` returns
immediately at the `start_byte >= total_size` check: no body byte is
written and the destination is byte-identical, so a repeated transfer on a
complete (url, destination) pair is a no-op. -/
theorem c5_idempotent_complete (file : List Nat) (resp : HttpResponse) (T : Nat)
    (hT : resp.contentLength = some T) (hL : T ≤ file.length) :
    download_file_run file resp = (file, .alreadyComplete) := by
  have hstep : download_file_step file.length resp = .alreadyComplete := by
    unfold download_file_step
    rw [hT]
    exact if_pos hL
  unfold download_file_run
  rw [hstep]

/-- Witness for `c5_idempotent_complete`: a 3-byte file re-requested, the
server returning the full 3-byte body again. -/
theorem c5_idempotent_complete_witness :
    ((HttpResponse.mk 200 (some 3) none [9, 9, 9]).contentLength = some 3
      ∧ 3 ≤ ([1, 2, 3] : List Nat).length)
    ∧ download_file_run [1, 2, 3] ⟨200, some 3, none, [9, 9, 9]⟩
        = ([1, 2, 3], .alreadyComplete) :=
  ⟨⟨rfl, by decide⟩, c5_idempotent_complete [1, 2, 3] ⟨200, some 3, none, [9, 9, 9]⟩ 3 rfl (by decide)⟩

/-! ## Tier classification and bucketing (`get_series_type` lines 484-537,
`main` lines 1539-1548) -/

/-- A series/collection as the orchestrator's bucketing sees it: its URL and
the `login_type` tag assigned by `get_series_type`. -/
structure Series where
  url : String
  login_type : String
deriving DecidableEq

/-- `get_series_type`: metadata typename `"NotAllowed"` yields `"eth"`
immediately; otherwise the page probe races the two visibility waits and
then checks the `Download` button first, the `Verify` button second; when
neither became visible before the waits timed out, the function returns
`"none"`. -/
def get_series_type (entry_typename : String)
    (download_visible verify_visible : Bool) : String :=
  if entry_typename = "NotAllowed" then "eth"
  else if download_visible then "open"
  else if verify_visible then "protected"
  else "none"

/-- The bucketing loop in `main` (lines 1542-1548): the `"open"` test is a
standalone `if`, while the `else` branch pairs only with the `"protected"`
test — so every series whose tag is not `"protected"` (including `"open"`
and `"none"`) is appended to `eth_series`. -/
def bucket_series : List Series → List Series × List Series × List Series
  | [] => ([], [], [])
  | x :: xs =>
    (if x.login_type = "open" then x :: (bucket_series xs).1
      else (bucket_series xs).1,
     if x.login_type = "protected" then x :: (bucket_series xs).2.1
      else (bucket_series xs).2.1,
     if x.login_type = "protected" then (bucket_series xs).2.2
      else x :: (bucket_series xs).2.2)

/-- The series processed by the open-access phase of `main` (lines
1554-1600): item metadata fetch, size probe, transfer. -/
def processed_open_phase (xs : List Series) : List Series :=
  (bucket_series xs).1

/-- The series processed by the ETH phase of `main` (lines 1642-1711):
metadata refetch, size probe, transfer — run only when the global ETH
login succeeded. -/
def processed_eth_phase (xs : List Series) (eth_success : Bool) : List Series :=
  if eth_success then (bucket_series xs).2.2 else []

/-- A series whose classification probe timed out: neither the download
control nor the verification control became visible. -/
def timed_out_series : Series :=
  ⟨"https://video.ethz.ch/t", get_series_type "SeriesBlock" false false⟩

/-- Claim C1 (code bug): a probe where neither control becomes visible is
classified `"none"` (the Unknown outcome), as the claim says — but the
orchestrator does not exclude such a series from the downstream phases:
the bucketing's unmatched `else` routes it into `eth_series`, so a
successful ETH login runs it through metadata fetch, size probe and
transfer. -/
theorem c1_timeout_not_excluded :
    get_series_type "SeriesBlock" false false = "none"
    ∧ timed_out_series ∈ processed_eth_phase [timed_out_series] true
    ∧ timed_out_series ∉ processed_open_phase [timed_out_series] := by
  decide

/-- Claim C3: every series classified `"open"` lands in the open bucket and
also — via the `else` that pairs only with the `"protected"` test — in the
eth bucket, so the buckets are not disjoint and the series is processed a
second time in the ETH phase whenever ETH login succeeds. -/
theorem c3_open_also_in_eth_bucket (xs : List Series) (x : Series)
    (hmem : x ∈ xs) (hopen : x.login_type = "open") :
    x ∈ (bucket_series xs).1 ∧ x ∈ (bucket_series xs).2.2
    ∧ x ∈ processed_open_phase xs ∧ x ∈ processed_eth_phase xs true := by
  have key : x ∈ (bucket_series xs).1 ∧ x ∈ (bucket_series xs).2.2 := by
    induction xs with
    | nil => cases hmem
    | cons y ys ih =>
      rcases List.mem_cons.mp hmem with rfl | hmem2
      · constructor
        · show x ∈ (if x.login_type = "open" then x :: (bucket_series ys).1
            else (bucket_series ys).1)
          rw [if_pos hopen]
          exact List.mem_cons_self x _
        · show x ∈ (if x.login_type = "protected" then (bucket_series ys).2.2
            else x :: (bucket_series ys).2.2)
          rw [if_neg (by rw [hopen]; decide)]
          exact List.mem_cons_self x _
      · obtain ⟨h1, h2⟩ := ih hmem2
        constructor
        · show x ∈ (if y.login_type = "open" then y :: (bucket_series ys).1
            else (bucket_series ys).1)
          split
          · exact List.mem_cons_of_mem y h1
          · exact h1
        · show x ∈ (if y.login_type = "protected" then (bucket_series ys).2.2
            else y :: (bucket_series ys).2.2)
          split
          · exact h2
          · exact List.mem_cons_of_mem y h2
  exact ⟨key.1, key.2, key.1, by simpa [processed_eth_phase] using key.2⟩

/-- Witness for `c3_open_also_in_eth_bucket` on a one-element list. -/
theorem c3_open_also_in_eth_bucket_witness :
    ((Series.mk "u" "open") ∈ [Series.mk "u" "open"]
      ∧ (Series.mk "u" "open").login_type = "open")
    ∧ ((Series.mk "u" "open") ∈ (bucket_series [Series.mk "u" "open"]).1
      ∧ (Series.mk "u" "open") ∈ (bucket_series [Series.mk "u" "open"]).2.2
      ∧ (Series.mk "u" "open") ∈ processed_open_phase [Series.mk "u" "open"]
      ∧ (Series.mk "u" "open") ∈ processed_eth_phase [Series.mk "u" "open"] true) :=
  ⟨⟨by decide, by decide⟩,
    c3_open_also_in_eth_bucket [Series.mk "u" "open"] (Series.mk "u" "open")
      (by decide) (by decide)⟩

/-! ## Bounded concurrency: `gather_with_concurrency` (lines 1142-1161)

`gather_with_concurrency n *coros` wraps every coroutine in
`sem_coro = async with semaphore: await coro` over `asyncio.Semaphore(n)`
and runs them through `asyncio.gather(..., return_exceptions=True)`. The
cooperative execution is modelled as a transition system: `acquire` is a
wrapper entering `async with` (possible only while the semaphore is
positive), `complete` is an admitted coroutine finishing with its own
outcome — value or exception — which `gather` records in that coroutine's
own output slot while `async with` releases the semaphore. -/

/-- Scheduling phase of one wrapped coroutine. -/
inductive TaskPhase where
  | pending
  | running
  | done
deriving DecidableEq

/-- State of a `gather_with_concurrency` run: remaining semaphore permits,
the phase of each coroutine, and the output slot of each coroutine. -/
structure GatherState (E A : Type) where
  sem : Nat
  phases : List TaskPhase
  results : List (Option (Except E A))

/-- Initial state: semaphore at `n`, every coroutine pending, no output
recorded. -/
def gather_init (E A : Type) (n M : Nat) : GatherState E A :=
  ⟨n, List.replicate M .pending, List.replicate M none⟩

/-- One cooperative step of `gather_with_concurrency`, where `outcomes i`
is the predetermined result (value or raised exception) of coroutine `i`. -/
inductive GatherStep (E A : Type) (outcomes : List (Except E A)) :
    GatherState E A → GatherState E A → Prop where
  | acquire (s : GatherState E A) (i : Nat) (hi : i < s.phases.length)
      (hp : s.phases.get ⟨i, hi⟩ = .pending) (hsem : 0 < s.sem) :
      GatherStep E A outcomes s ⟨s.sem - 1, s.phases.set i .running, s.results⟩
  | complete (s : GatherState E A) (i : Nat) (hi : i < s.phases.length)
      (hp : s.phases.get ⟨i, hi⟩ = .running) (ho : i < outcomes.length) :
      GatherStep E A outcomes s
        ⟨s.sem + 1, s.phases.set i .done,
          s.results.set i (some (outcomes.get ⟨i, ho⟩))⟩

/-- All interleavings reachable from the start of
`gather_with_concurrency n outcomes`. -/
def GatherReach (E A : Type) (n : Nat) (outcomes : List (Except E A))
    (s : GatherState E A) : Prop :=
  Relation.ReflTransGen (GatherStep E A outcomes)
    (gather_init E A n outcomes.length) s

/-- Number of coroutines currently holding a semaphore slot. -/
def countRunning (ps : List TaskPhase) : Nat :=
  ps.countP (fun p => decide (p = .running))

/-- Number of coroutines not yet admitted. -/
def countPending (ps : List TaskPhase) : Nat :=
  ps.countP (fun p => decide (p = .pending))

/-- Number of coroutines that reached a terminal state. -/
def countDone (ps : List TaskPhase) : Nat :=
  ps.countP (fun p => decide (p = .done))

/-- Every coroutine reached a terminal state. -/
def AllDone {E A : Type} (s : GatherState E A) : Prop :=
  ∀ p ∈ s.phases, p = TaskPhase.done

instance {E A : Type} (s : GatherState E A) : Decidable (AllDone s) :=
  List.decidableBAll _ s.phases

/-- No step is available: the run has ended. -/
def GatherStuck (E A : Type) (outcomes : List (Except E A))
    (s : GatherState E A) : Prop :=
  ¬ ∃ t, GatherStep E A outcomes s t

/-- Termination measure: strictly decreases on every step. -/
def gatherMeasure {E A : Type} (s : GatherState E A) : Nat :=
  2 * countPending s.phases + countRunning s.phases

/-- Run invariant: phase and result lists keep the task count, permits plus
running tasks equal the capacity, and each output slot holds exactly its
own coroutine's outcome once that coroutine is done, `none` before. -/
def GatherInv (E A : Type) (n : Nat) (outcomes : List (Except E A))
    (s : GatherState E A) : Prop :=
  s.phases.length = outcomes.length
  ∧ s.results.length = outcomes.length
  ∧ s.sem + countRunning s.phases = n
  ∧ ∀ i, i < outcomes.length →
      s.results[i]? = some (if s.phases[i]? = some TaskPhase.done
        then outcomes[i]? else none)

theorem countP_set (p : TaskPhase → Bool) (l : List TaskPhase) :
    ∀ (i : Nat) (a : TaskPhase) (h : i < l.length),
      (l.set i a).countP p + (if p (l.get ⟨i, h⟩) then 1 else 0)
        = l.countP p + (if p a then 1 else 0) := by
  induction l with
  | nil => intro i a h; cases h
  | cons x xs ih =>
    intro i a h
    match i with
    | 0 => simp [List.countP_cons]; split <;> split <;> omega
    | j + 1 =>
      have hj : j < xs.length := by simpa using h
      have := ih j a hj
      simp only [List.set_cons_succ, List.countP_cons, List.get_cons_succ]
      omega

theorem countRunning_set_pr (l : List TaskPhase) (i : Nat) (h : i < l.length)
    (hp : l.get ⟨i, h⟩ = .pending) :
    countRunning (l.set i .running) = countRunning l + 1 := by
  have hc := countP_set (fun p => decide (p = TaskPhase.running)) l i .running h
  rw [hp] at hc
  unfold countRunning
  simpa using hc

theorem countPending_set_pr (l : List TaskPhase) (i : Nat) (h : i < l.length)
    (hp : l.get ⟨i, h⟩ = .pending) :
    countPending (l.set i .running) + 1 = countPending l := by
  have hc := countP_set (fun p => decide (p = TaskPhase.pending)) l i .running h
  rw [hp] at hc
  unfold countPending
  simpa using hc

theorem countRunning_set_rd (l : List TaskPhase) (i : Nat) (h : i < l.length)
    (hp : l.get ⟨i, h⟩ = .running) :
    countRunning (l.set i .done) + 1 = countRunning l := by
  have hc := countP_set (fun p => decide (p = TaskPhase.running)) l i .done h
  rw [hp] at hc
  unfold countRunning
  simpa using hc

theorem countPending_set_rd (l : List TaskPhase) (i : Nat) (h : i < l.length)
    (hp : l.get ⟨i, h⟩ = .running) :
    countPending (l.set i .done) = countPending l := by
  have hc := countP_set (fun p => decide (p = TaskPhase.pending)) l i .done h
  rw [hp] at hc
  unfold countPending
  simpa using hc

theorem countDone_set_rd (l : List TaskPhase) (i : Nat) (h : i < l.length)
    (hp : l.get ⟨i, h⟩ = .running) :
    countDone (l.set i .done) = countDone l + 1 := by
  have hc := countP_set (fun p => decide (p = TaskPhase.done)) l i .done h
  rw [hp] at hc
  unfold countDone
  simpa using hc

theorem gather_inv_init (E A : Type) (n : Nat) (outcomes : List (Except E A)) :
    GatherInv E A n outcomes (gather_init E A n outcomes.length) := by
  refine ⟨by simp [gather_init], by simp [gather_init], ?_, ?_⟩
  · have : countRunning (List.replicate outcomes.length TaskPhase.pending) = 0 := by
      unfold countRunning
      induction outcomes.length with
      | zero => rfl
      | succ k ih => simp [List.replicate_succ, List.countP_cons, ih]
    simp [gather_init, this]
  · intro i hi
    simp [gather_init, List.getElem?_replicate, hi]

theorem gather_inv_step (E A : Type) (n : Nat) (outcomes : List (Except E A))
    (s t : GatherState E A) (hinv : GatherInv E A n outcomes s)
    (hstep : GatherStep E A outcomes s t) : GatherInv E A n outcomes t := by
  obtain ⟨hlp, hlr, hsem, hres⟩ := hinv
  cases hstep with
  | acquire i hi hp hsem0 =>
    refine ⟨by simpa using hlp, hlr, ?_, ?_⟩
    · have hcount := countRunning_set_pr s.phases i hi hp
      show s.sem - 1 + countRunning (s.phases.set i .running) = n
      omega
    · intro j hj
      rcases eq_or_ne i j with rfl | hne
      · have hget : s.phases[i]? = some TaskPhase.pending := by
          rw [List.getElem?_eq_getElem hi]
          simpa [List.get_eq_getElem] using hp
        have hset : (s.phases.set i TaskPhase.running)[i]? = some TaskPhase.running :=
          List.getElem?_set_self hi
        have := hres i hj
        rw [hget] at this
        simpa [hset] using this
      · have := hres j hj
        simpa [List.getElem?_set_ne hne] using this
  | complete i hi hp ho =>
    refine ⟨by simpa using hlp, by simpa using hlr, ?_, ?_⟩
    · have hcount := countRunning_set_rd s.phases i hi hp
      show s.sem + 1 + countRunning (s.phases.set i .done) = n
      omega
    · intro j hj
      rcases eq_or_ne i j with rfl | hne
      · have hset : (s.phases.set i TaskPhase.done)[i]? = some TaskPhase.done :=
          List.getElem?_set_self hi
        have hiR : i < s.results.length := by omega
        have hsetr : (s.results.set i (some (outcomes.get ⟨i, ho⟩)))[i]?
            = some (some (outcomes.get ⟨i, ho⟩)) :=
          List.getElem?_set_self hiR
        rw [hset, hsetr]
        simp [List.getElem?_eq_getElem ho, List.get_eq_getElem]
      · have := hres j hj
        simpa [List.getElem?_set_ne hne] using this

theorem gather_inv_reach (E A : Type) (n : Nat) (outcomes : List (Except E A))
    (s : GatherState E A) (hreach : GatherReach E A n outcomes s) :
    GatherInv E A n outcomes s := by
  induction hreach with
  | refl => exact gather_inv_init E A n outcomes
  | tail _ hstep ih => exact gather_inv_step E A n outcomes _ _ ih hstep

theorem gather_progress (E A : Type) (n : Nat) (outcomes : List (Except E A))
    (s : GatherState E A) (hn : 0 < n) (hinv : GatherInv E A n outcomes s)
    (hnot : ¬ AllDone s) : ∃ t, GatherStep E A outcomes s t := by
  obtain ⟨hlp, _, hsem, _⟩ := hinv
  have hex : ∃ p ∈ s.phases, p ≠ TaskPhase.done := by
    by_contra hall
    push_neg at hall
    exact hnot hall
  obtain ⟨p, hpmem, hpne⟩ := hex
  obtain ⟨⟨i, hi⟩, hget⟩ := List.mem_iff_get.mp hpmem
  cases hpcase : p with
  | done => exact absurd hpcase hpne
  | running =>
    refine ⟨_, GatherStep.complete s i hi ?_ (by omega)⟩
    rw [hget, hpcase]
  | pending =>
    rcases Nat.eq_zero_or_pos s.sem with hzero | hpos
    · have hrun : 0 < countRunning s.phases := by omega
      have : ∃ q ∈ s.phases, (decide (q = TaskPhase.running)) = true :=
        List.countP_pos_iff.mp hrun
      obtain ⟨q, hqmem, hq⟩ := this
      obtain ⟨⟨j, hj⟩, hgetj⟩ := List.mem_iff_get.mp hqmem
      refine ⟨_, GatherStep.complete s j hj ?_ (by omega)⟩
      rw [hgetj]
      exact of_decide_eq_true hq
    · refine ⟨_, GatherStep.acquire s i hi ?_ hpos⟩
      rw [hget, hpcase]

theorem gather_all_done_results (E A : Type) (n : Nat)
    (outcomes : List (Except E A)) (s : GatherState E A)
    (hinv : GatherInv E A n outcomes s) (hdone : AllDone s) :
    s.results = outcomes.map some := by
  obtain ⟨hlp, hlr, _, hres⟩ := hinv
  apply List.ext_getElem?
  intro i
  rcases Nat.lt_or_ge i outcomes.length with hi | hi
  · have hph : s.phases[i]? = some TaskPhase.done := by
      have hilt : i < s.phases.length := by omega
      rw [List.getElem?_eq_getElem hilt]
      exact congrArg some (hdone _ (List.getElem?_mem (List.getElem?_eq_getElem hilt)))
    have := hres i hi
    rw [hph] at this
    simp only [if_pos rfl] at this
    rw [this, List.getElem?_map, List.getElem?_eq_getElem hi]
    rfl
  · have h1 : s.results[i]? = none := by
      rw [List.getElem?_eq_none]
      omega
    have h2 : (outcomes.map some)[i]? = none := by
      rw [List.getElem?_eq_none]
      simpa using hi
    rw [h1, h2]

/-- Claim C6: for capacity `K > 0` and more than `K` coroutines, along
every reachable interleaving (1) at most `K` coroutines hold a slot,
(2) permits plus slot-holders always equal `K`, (3) any step that returns a
permit is the full completion of exactly one coroutine — a slot is released
only when its task finishes, (4) every step strictly decreases the
termination measure, so every run ends, and (5) an ended run has every
coroutine in a terminal state. -/
theorem c6_bounded_concurrency (E A : Type) (K : Nat) (hK : 0 < K)
    (outcomes : List (Except E A)) (hM : K < outcomes.length)
    (s : GatherState E A) (hreach : GatherReach E A K outcomes s) :
    countRunning s.phases ≤ K
    ∧ s.sem + countRunning s.phases = K
    ∧ (∀ t, GatherStep E A outcomes s t → s.sem < t.sem →
        countDone t.phases = countDone s.phases + 1)
    ∧ (∀ t, GatherStep E A outcomes s t → gatherMeasure t < gatherMeasure s)
    ∧ (GatherStuck E A outcomes s → AllDone s) := by
  have hinv := gather_inv_reach E A K outcomes s hreach
  have hsem := hinv.2.2.1
  refine ⟨by omega, hsem, ?_, ?_, ?_⟩
  · intro t hstep hup
    cases hstep with
    | acquire i hi hp hsem0 =>
      exfalso
      have : s.sem < s.sem - 1 := hup
      omega
    | complete i hi hp ho =>
      have hcount := countDone_set_rd s.phases i hi hp
      show countDone (s.phases.set i .done) = countDone s.phases + 1
      omega
  · intro t hstep
    cases hstep with
    | acquire i hi hp hsem0 =>
      have hr := countRunning_set_pr s.phases i hi hp
      have hq := countPending_set_pr s.phases i hi hp
      show 2 * countPending (s.phases.set i .running)
          + countRunning (s.phases.set i .running)
        < 2 * countPending s.phases + countRunning s.phases
      omega
    | complete i hi hp ho =>
      have hr := countRunning_set_rd s.phases i hi hp
      have hq := countPending_set_rd s.phases i hi hp
      show 2 * countPending (s.phases.set i .done)
          + countRunning (s.phases.set i .done)
        < 2 * countPending s.phases + countRunning s.phases
      omega
  · intro hstuck
    by_contra hnot
    exact hstuck (gather_progress E A K outcomes s hK hinv hnot)

/-- Witness for `c6_bounded_concurrency`: capacity 1, two tasks (one of
them failing), at the initial state. -/
theorem c6_bounded_concurrency_witness :
    ((0 : Nat) < 1
      ∧ 1 < ([Except.ok 0, Except.error "e"] : List (Except String Nat)).length)
    ∧ countRunning (gather_init String Nat 1 2).phases ≤ 1 :=
  ⟨⟨by decide, by decide⟩,
    (c6_bounded_concurrency String Nat 1 (by decide)
      [Except.ok 0, Except.error "e"] (by decide)
      (gather_init String Nat 1 2) Relation.ReflTransGen.refl).1⟩

/-- Claim C7: whenever a `gather_with_concurrency` run has brought every
coroutine to a terminal state, the output list holds, in input order, each
coroutine's own outcome — value or captured exception — so the call
preserves order, does not short-circuit on the first error, and records
every slot's result independently of sibling failures. -/
theorem c7_order_and_capture (E A : Type) (K : Nat)
    (outcomes : List (Except E A)) (s : GatherState E A)
    (hreach : GatherReach E A K outcomes s) (hdone : AllDone s) :
    s.results = outcomes.map some :=
  gather_all_done_results E A K outcomes s
    (gather_inv_reach E A K outcomes s hreach) hdone

/-- Witness for `c7_order_and_capture`: a single failing task run to
completion; its exception is captured in its own slot. -/
theorem c7_order_and_capture_witness :
    (GatherReach String Nat 1 [Except.error "boom"]
        ⟨1, [TaskPhase.done], [some (Except.error "boom")]⟩
      ∧ AllDone (⟨1, [TaskPhase.done], [some (Except.error "boom")]⟩
          : GatherState String Nat))
    ∧ (⟨1, [TaskPhase.done], [some (Except.error "boom")]⟩
        : GatherState String Nat).results
      = ([Except.error "boom"] : List (Except String Nat)).map some := by
  have h1 : GatherStep String Nat [Except.error "boom"]
      (gather_init String Nat 1 1)
      ⟨0, [TaskPhase.running], [none]⟩ :=
    GatherStep.acquire (gather_init String Nat 1 1) 0 (by decide) (by decide)
      (by decide)
  have h2 : GatherStep String Nat [Except.error "boom"]
      ⟨0, [TaskPhase.running], [none]⟩
      ⟨1, [TaskPhase.done], [some (Except.error "boom")]⟩ :=
    GatherStep.complete ⟨0, [TaskPhase.running], [none]⟩ 0 (by decide)
      (by decide) (by decide)
  have hreach : GatherReach String Nat 1 [Except.error "boom"]
      ⟨1, [TaskPhase.done], [some (Except.error "boom")]⟩ :=
    Relation.ReflTransGen.tail (Relation.ReflTransGen.tail
      Relation.ReflTransGen.refl h1) h2
  exact ⟨⟨hreach, by decide⟩,
    c7_order_and_capture String Nat 1 [Except.error "boom"] _ hreach (by decide)⟩

/-! ## Per-item media and subtitle selection
(`download_video_subtitles_and_maybe_audio`, lines 955-1083)

Source maps (python dicts from quality/language label to URL) are modelled
as association lists with `List.lookup`. -/

/-- Media URL selection (lines 991-999): `media_url` is the video source at
the configured quality (`dict.get`, `none` when absent); only when the item
exposes no video sources at all is the audio source at the configured audio
quality tried, and a failed audio access is caught, logged and leaves
`media_url` as it was. -/
def select_media_url (video_sources audio_sources : List (String × String))
    (video_quality audio_quality : String) : Option String :=
  let media_url := video_sources.lookup video_quality
  if video_sources = [] then
    match audio_sources.lookup audio_quality with
    | some u => some u
    | none => media_url
  else media_url

/-- The media phase of the item download: line 1000
(`media_url.rsplit(...)`) raises `AttributeError` when no media URL was
selected (`media_url` is `None`), failing the item; otherwise the selected
URL is transferred. -/
def media_download (video_sources audio_sources : List (String × String))
    (video_quality audio_quality : String) : Except String String :=
  match select_media_url video_sources audio_sources video_quality audio_quality with
  | some u => .ok u
  | none => .error "AttributeError"

/-- The subtitle loop (lines 1051-1080): for each configured language tag,
an exact lookup in the item's subtitle map; a `KeyError` is caught and the
loop continues, so exactly the present tags are downloaded, in
configuration order. -/
def subtitle_downloads (subtitle_sources : List (String × String))
    (subtitles : List String) : List (String × String) :=
  subtitles.filterMap
    (fun s => (subtitle_sources.lookup s).map (fun u => (s, u)))

/-- Files produced for one item: the media file and the subtitle files. -/
structure ItemResult where
  media : String
  subs : List (String × String)
deriving DecidableEq

/-- One full item download: the media transfer happens first (its failure
is the only failure of the function), then every configured subtitle tag is
looked up, missing tags being skipped. -/
def download_item (video_sources audio_sources subtitle_sources : List (String × String))
    (video_quality audio_quality : String) (subtitles : List String) :
    Except String ItemResult :=
  match select_media_url video_sources audio_sources video_quality audio_quality with
  | none => .error "AttributeError"
  | some u => .ok ⟨u, subtitle_downloads subtitle_sources subtitles⟩

theorem lookup_ne_nil {l : List (String × String)} {k u : String}
    (h : l.lookup k = some u) : ¬ l = [] := by
  intro he
  rw [he] at h
  cases h

/-- Claim C8: media selection prefers the video source at the configured
quality; when the item exposes no video sources at all, the audio source at
the configured audio quality is substituted if present; when neither
exists, the item fails with its own error — and running such a failing item
through `gather_with_concurrency` alongside siblings still drives every
task to a terminal state. -/
theorem c8_media_selection (video_sources audio_sources : List (String × String))
    (video_quality audio_quality : String) :
    (∀ u, video_sources.lookup video_quality = some u →
      media_download video_sources audio_sources video_quality audio_quality = .ok u)
    ∧ (video_sources = [] → ∀ u, audio_sources.lookup audio_quality = some u →
      media_download video_sources audio_sources video_quality audio_quality = .ok u)
    ∧ (video_sources = [] → audio_sources.lookup audio_quality = none →
      media_download video_sources audio_sources video_quality audio_quality
        = .error "AttributeError")
    ∧ (∀ K, 0 < K → ∀ (others : List (Except String String)) s,
        GatherReach String String K
          (media_download video_sources audio_sources video_quality audio_quality
            :: others) s →
        GatherStuck String String
          (media_download video_sources audio_sources video_quality audio_quality
            :: others) s →
        AllDone s) := by
  refine ⟨?_, ?_, ?_, ?_⟩
  · intro u h
    unfold media_download select_media_url
    rw [if_neg (lookup_ne_nil h), h]
  · intro he u h
    subst he
    unfold media_download select_media_url
    rw [if_pos rfl, h]
  · intro he h
    subst he
    unfold media_download select_media_url
    rw [if_pos rfl, h]
    rfl
  · intro K hK others s hreach hstuck
    by_contra hnot
    exact hstuck (gather_progress String String K _ s hK
      (gather_inv_reach String String K _ s hreach) hnot)

/-- Witness for `c8_media_selection`: an item with the configured video
quality present, and an item with no media at all failing on its own. -/
theorem c8_media_selection_witness :
    ([("mid", "v.mp4")] : List (String × String)).lookup "mid" = some "v.mp4"
    ∧ media_download [("mid", "v.mp4")] [("ogg", "a.ogg")] "mid" "ogg" = .ok "v.mp4"
    ∧ media_download [] [] "mid" "ogg" = .error "AttributeError" :=
  ⟨by decide,
    (c8_media_selection [("mid", "v.mp4")] [("ogg", "a.ogg")] "mid" "ogg").1
      "v.mp4" (by decide),
    (c8_media_selection [] [] "mid" "ogg").2.2.1 rfl (by decide)⟩

/-- Claim C9: a configured subtitle language tag absent from an item's
subtitle map raises nothing — the item still completes, its media file is
transferred, the absent language is simply omitted, and every tag that is
present is still downloaded. -/
theorem c9_subtitle_skip (subtitle_sources : List (String × String))
    (subtitles : List String) (tag : String)
    (habs : subtitle_sources.lookup tag = none)
    (video_sources audio_sources : List (String × String))
    (video_quality audio_quality u : String)
    (hv : video_sources.lookup video_quality = some u) :
    download_item video_sources audio_sources subtitle_sources
        video_quality audio_quality subtitles
      = .ok ⟨u, subtitle_downloads subtitle_sources subtitles⟩
    ∧ (∀ x ∈ subtitle_downloads subtitle_sources subtitles, x.1 ≠ tag)
    ∧ (∀ t v, t ∈ subtitles → subtitle_sources.lookup t = some v →
        (t, v) ∈ subtitle_downloads subtitle_sources subtitles) := by
  refine ⟨?_, ?_, ?_⟩
  · unfold download_item select_media_url
    rw [if_neg (lookup_ne_nil hv), hv]
  · intro x hx
    obtain ⟨a, ha, hfa⟩ := List.mem_filterMap.mp hx
    cases hl : subtitle_sources.lookup a with
    | none => rw [hl] at hfa; cases hfa
    | some v =>
      rw [hl] at hfa
      cases hfa
      intro hx1
      simp only at hx1
      rw [hx1] at hl
      rw [hl] at habs
      cases habs
  · intro t v ht hl
    apply List.mem_filterMap.mpr
    exact ⟨t, ht, by rw [hl]; rfl⟩

/-- Witness for `c9_subtitle_skip`, the spec's own example: languages
{en-US, de-DE} configured, the item lacking de-DE. -/
theorem c9_subtitle_skip_witness :
    (([("en-US", "e.vtt")] : List (String × String)).lookup "de-DE" = none
      ∧ ([("mid", "v.mp4")] : List (String × String)).lookup "mid" = some "v.mp4")
    ∧ download_item [("mid", "v.mp4")] [] [("en-US", "e.vtt")] "mid" "ogg"
        ["en-US", "de-DE"]
      = .ok ⟨"v.mp4", subtitle_downloads [("en-US", "e.vtt")] ["en-US", "de-DE"]⟩ :=
  ⟨⟨by decide, by decide⟩,
    (c9_subtitle_skip [("en-US", "e.vtt")] ["en-US", "de-DE"] "de-DE" (by decide)
      [("mid", "v.mp4")] [] "mid" "ogg" "v.mp4" (by decide)).1⟩

/-! ## Filename timestamp format (`process_entry` lines 641-656)

`process_entry` formats the item's creation timestamp with
`strftime("%Y-%m-%d__%H_%M")` and
`download_video_subtitles_and_maybe_audio` puts that string at the front of
the filename. The format is modelled character by character: every numeric
field zero-padded to fixed width, constant separators, seconds (and
anything finer) dropped. -/

/-- A Python `datetime` value, to calendar-second precision (the `created`
metadata timestamps carry seconds). Python `datetime` guarantees
`1 <= year <= 9999`, `1 <= month <= 12`, `1 <= day <= 31`, `hour <= 23`,
`minute <= 59`, `second <= 59`. -/
structure Timestamp where
  year : Nat
  month : Nat
  day : Nat
  hour : Nat
  minute : Nat
  second : Nat
deriving DecidableEq

/-- The `datetime` invariants. -/
def valid_timestamp (t : Timestamp) : Prop :=
  1 ≤ t.year ∧ t.year ≤ 9999 ∧ 1 ≤ t.month ∧ t.month ≤ 12
  ∧ 1 ≤ t.day ∧ t.day ≤ 31 ∧ t.hour ≤ 23 ∧ t.minute ≤ 59 ∧ t.second ≤ 59

instance (t : Timestamp) : Decidable (valid_timestamp t) := by
  unfold valid_timestamp
  exact inferInstance

/-- Chronological (strict) order of timestamps. -/
def chronLt (a b : Timestamp) : Prop :=
  a.year < b.year ∨ (a.year = b.year ∧ (a.month < b.month ∨ (a.month = b.month
    ∧ (a.day < b.day ∨ (a.day = b.day ∧ (a.hour < b.hour ∨ (a.hour = b.hour
    ∧ (a.minute < b.minute ∨ (a.minute = b.minute
    ∧ a.second < b.second)))))))))

instance (a b : Timestamp) : Decidable (chronLt a b) := by
  unfold chronLt
  exact inferInstance

/-- Zero-padded decimal digits of `n`, most significant first, width `w`
(the value of `strftime`'s `%Y` at width 4, `%m`/`%d`/`%H`/`%M` at
width 2). -/
def padDigits : Nat → Nat → List Char
  | 0, _ => []
  | w + 1, n => Nat.digitChar (n / 10 ^ w % 10) :: padDigits w n

/-- The characters of `strftime("%Y-%m-%d__%H_%M")`. -/
def fmtChars (t : Timestamp) : List Char :=
  padDigits 4 t.year ++ (['-'] ++ (padDigits 2 t.month ++ (['-']
    ++ (padDigits 2 t.day ++ (['_', '_'] ++ (padDigits 2 t.hour
    ++ (['_'] ++ padDigits 2 t.minute)))))))

/-- The timestamp string `process_entry` stores under the `"datetime"` key
(line 645). -/
def format_datetime (t : Timestamp) : String := ⟨fmtChars t⟩

theorem padDigits_length : ∀ (w n : Nat), (padDigits w n).length = w
  | 0, _ => rfl
  | w + 1, n => by simp [padDigits, padDigits_length w n]

theorem padDigits_mod : ∀ (w n : Nat), padDigits w (n % 10 ^ w) = padDigits w n := by
  intro w
  induction w with
  | zero => intro n; rfl
  | succ k ih =>
    intro n
    show Nat.digitChar (n % 10 ^ (k + 1) / 10 ^ k % 10) :: padDigits k (n % 10 ^ (k + 1))
      = Nat.digitChar (n / 10 ^ k % 10) :: padDigits k n
    congr 1
    · have hx : n % 10 ^ (k + 1) / 10 ^ k % 10 = n / 10 ^ k % 10 := by
        rw [pow_succ, Nat.mod_mul_right_div_self]
        exact Nat.mod_mod_of_dvd _ dvd_rfl
      rw [hx]
    · calc padDigits k (n % 10 ^ (k + 1))
          = padDigits k (n % 10 ^ (k + 1) % 10 ^ k) := (ih _).symm
        _ = padDigits k (n % 10 ^ k) := by
            rw [Nat.mod_mod_of_dvd _ (pow_dvd_pow 10 (Nat.le_succ k))]
        _ = padDigits k n := ih n

theorem digitChar_lt_iff : ∀ a : Nat, a < 10 → ∀ b : Nat, b < 10 →
    (Nat.digitChar a < Nat.digitChar b ↔ a < b) := by decide

theorem digitChar_eq_iff : ∀ a : Nat, a < 10 → ∀ b : Nat, b < 10 →
    (Nat.digitChar a = Nat.digitChar b ↔ a = b) := by decide

theorem lex_cons_iff {a b : Char} {l1 l2 : List Char} :
    List.Lex (· < ·) (a :: l1) (b :: l2)
      ↔ a < b ∨ (a = b ∧ List.Lex (· < ·) l1 l2) := by
  constructor
  · intro h
    cases h with
    | cons h => exact Or.inr ⟨rfl, h⟩
    | rel h => exact Or.inl h
  · intro h
    rcases h with h | ⟨rfl, h⟩
    · exact List.Lex.rel h
    · exact List.Lex.cons h

theorem lex_nil_nil : ¬ List.Lex (· < ·) ([] : List Char) [] := by
  intro h
  cases h

theorem div_mod_lt_iff (D n m : Nat) (hD : 0 < D) :
    n < m ↔ (n / D < m / D ∨ (n / D = m / D ∧ n % D < m % D)) := by
  have h1 := Nat.div_add_mod n D
  have h2 := Nat.div_add_mod m D
  have hn := Nat.mod_lt n hD
  have hm := Nat.mod_lt m hD
  constructor
  · intro h
    rcases Nat.lt_or_ge (n / D) (m / D) with hq | hq
    · exact Or.inl hq
    · right
      have heq : n / D = m / D :=
        Nat.le_antisymm (Nat.div_le_div_right (Nat.le_of_lt h)) hq
      refine ⟨heq, ?_⟩
      rw [heq] at h1
      omega
  · rintro (hq | ⟨hq, hr⟩)
    · have hstep : D * (n / D) + D ≤ D * (m / D) := by
        have h3 : n / D + 1 ≤ m / D := hq
        calc D * (n / D) + D = D * (n / D + 1) := by ring
          _ ≤ D * (m / D) := Nat.mul_le_mul (Nat.le_refl D) h3
      omega
    · rw [hq] at h1
      omega

theorem div_mod_eq_iff (D n m : Nat) (hD : 0 < D) :
    n = m ↔ (n / D = m / D ∧ n % D = m % D) := by
  constructor
  · rintro rfl
    exact ⟨rfl, rfl⟩
  · rintro ⟨hq, hr⟩
    have h1 := Nat.div_add_mod n D
    have h2 := Nat.div_add_mod m D
    rw [hq, hr] at h1
    omega

theorem padDigits_lt_iff : ∀ (w n m : Nat), n < 10 ^ w → m < 10 ^ w →
    (List.Lex (· < ·) (padDigits w n) (padDigits w m) ↔ n < m) := by
  intro w
  induction w with
  | zero =>
    intro n m hn hm
    constructor
    · intro h
      exact absurd h lex_nil_nil
    · intro h
      exact absurd h (by omega)
  | succ k ih =>
    intro n m hn hm
    have hnd : n / 10 ^ k < 10 :=
      Nat.div_lt_of_lt_mul (by rw [← pow_succ]; exact hn)
    have hmd : m / 10 ^ k < 10 :=
      Nat.div_lt_of_lt_mul (by rw [← pow_succ]; exact hm)
    have hpow : (0 : Nat) < 10 ^ k := pow_pos (by omega) k
    show List.Lex (· < ·)
        (Nat.digitChar (n / 10 ^ k % 10) :: padDigits k n)
        (Nat.digitChar (m / 10 ^ k % 10) :: padDigits k m) ↔ n < m
    rw [lex_cons_iff]
    rw [Nat.mod_eq_of_lt hnd, Nat.mod_eq_of_lt hmd]
    rw [digitChar_lt_iff _ hnd _ hmd, digitChar_eq_iff _ hnd _ hmd]
    rw [← padDigits_mod k n, ← padDigits_mod k m]
    rw [ih (n % 10 ^ k) (m % 10 ^ k) (Nat.mod_lt n hpow) (Nat.mod_lt m hpow)]
    exact (div_mod_lt_iff (10 ^ k) n m hpow).symm

theorem padDigits_eq_iff : ∀ (w n m : Nat), n < 10 ^ w → m < 10 ^ w →
    (padDigits w n = padDigits w m ↔ n = m) := by
  intro w
  induction w with
  | zero =>
    intro n m hn hm
    constructor
    · intro _
      omega
    · intro _
      rfl
  | succ k ih =>
    intro n m hn hm
    have hnd : n / 10 ^ k < 10 :=
      Nat.div_lt_of_lt_mul (by rw [← pow_succ]; exact hn)
    have hmd : m / 10 ^ k < 10 :=
      Nat.div_lt_of_lt_mul (by rw [← pow_succ]; exact hm)
    have hpow : (0 : Nat) < 10 ^ k := pow_pos (by omega) k
    show (Nat.digitChar (n / 10 ^ k % 10) :: padDigits k n
        = Nat.digitChar (m / 10 ^ k % 10) :: padDigits k m) ↔ n = m
    rw [List.cons.injEq]
    rw [Nat.mod_eq_of_lt hnd, Nat.mod_eq_of_lt hmd]
    rw [digitChar_eq_iff _ hnd _ hmd]
    rw [← padDigits_mod k n, ← padDigits_mod k m]
    rw [ih (n % 10 ^ k) (m % 10 ^ k) (Nat.mod_lt n hpow) (Nat.mod_lt m hpow)]
    exact (div_mod_eq_iff (10 ^ k) n m hpow).symm

theorem lex_append_iff : ∀ (a b l1 l2 : List Char), a.length = b.length →
    (List.Lex (· < ·) (a ++ l1) (b ++ l2)
      ↔ List.Lex (· < ·) a b ∨ (a = b ∧ List.Lex (· < ·) l1 l2)) := by
  intro a
  induction a with
  | nil =>
    intro b l1 l2 hlen
    have hb : b = [] := by
      cases b with
      | nil => rfl
      | cons y ys => exact absurd hlen (by simp)
    subst hb
    constructor
    · intro h
      exact Or.inr ⟨rfl, h⟩
    · rintro (h | ⟨_, h⟩)
      · exact absurd h lex_nil_nil
      · exact h
  | cons x xs ih =>
    intro b l1 l2 hlen
    cases b with
    | nil => exact absurd hlen (by simp)
    | cons y ys =>
      have hlen2 : xs.length = ys.length := by simpa using hlen
      simp only [List.cons_append]
      rw [lex_cons_iff, lex_cons_iff, ih ys l1 l2 hlen2, List.cons.injEq]
      tauto

theorem lex_append_same : ∀ (c l1 l2 : List Char),
    List.Lex (· < ·) (c ++ l1) (c ++ l2) ↔ List.Lex (· < ·) l1 l2 := by
  intro c
  induction c with
  | nil =>
    intro l1 l2
    exact Iff.rfl
  | cons x xs ih =>
    intro l1 l2
    simp only [List.cons_append]
    rw [lex_cons_iff]
    constructor
    · rintro (h | ⟨_, h⟩)
      · exact absurd h (lt_irrefl x)
      · exact (ih l1 l2).mp h
    · intro h
      exact Or.inr ⟨rfl, (ih l1 l2).mpr h⟩

theorem string_mk_lt_iff (a b : List Char) :
    ((⟨a⟩ : String) < ⟨b⟩) ↔ List.Lex (· < ·) a b := by
  rw [String.lt_iff_toList_lt]
  exact Iff.rfl

theorem fmtChars_lex_iff (t1 t2 : Timestamp)
    (h1 : valid_timestamp t1) (h2 : valid_timestamp t2)
    (hs : t1.second = t2.second) :
    (List.Lex (· < ·) (fmtChars t1) (fmtChars t2) ↔ chronLt t1 t2) := by
  obtain ⟨hy1a, hy1b, hmo1a, hmo1b, hd1a, hd1b, hh1, hmi1, hs1⟩ := h1
  obtain ⟨hy2a, hy2b, hmo2a, hmo2b, hd2a, hd2b, hh2, hmi2, hs2⟩ := h2
  unfold fmtChars
  rw [lex_append_iff _ _ _ _ (by rw [padDigits_length, padDigits_length])]
  rw [padDigits_lt_iff 4 t1.year t2.year (by omega) (by omega),
      padDigits_eq_iff 4 t1.year t2.year (by omega) (by omega)]
  rw [lex_append_same]
  rw [lex_append_iff _ _ _ _ (by rw [padDigits_length, padDigits_length])]
  rw [padDigits_lt_iff 2 t1.month t2.month (by omega) (by omega),
      padDigits_eq_iff 2 t1.month t2.month (by omega) (by omega)]
  rw [lex_append_same]
  rw [lex_append_iff _ _ _ _ (by rw [padDigits_length, padDigits_length])]
  rw [padDigits_lt_iff 2 t1.day t2.day (by omega) (by omega),
      padDigits_eq_iff 2 t1.day t2.day (by omega) (by omega)]
  rw [lex_append_same]
  rw [lex_append_iff _ _ _ _ (by rw [padDigits_length, padDigits_length])]
  rw [padDigits_lt_iff 2 t1.hour t2.hour (by omega) (by omega),
      padDigits_eq_iff 2 t1.hour t2.hour (by omega) (by omega)]
  rw [lex_append_same]
  rw [padDigits_lt_iff 2 t1.minute t2.minute (by omega) (by omega)]
  unfold chronLt
  rw [hs]
  constructor
  · intro h
    omega
  · intro h
    omega

/-- Claim C10 as amended: for `datetime`-valid timestamps that agree on
seconds (the strftime format `%Y-%m-%d__%H_%M` has minute granularity),
lexicographic order of the produced filename timestamps coincides exactly
with chronological order of the underlying datetimes. -/
theorem c10_amended_lex_order (t1 t2 : Timestamp)
    (h1 : valid_timestamp t1) (h2 : valid_timestamp t2)
    (hs : t1.second = t2.second) :
    format_datetime t1 < format_datetime t2 ↔ chronLt t1 t2 := by
  unfold format_datetime
  rw [string_mk_lt_iff]
  exact fmtChars_lex_iff t1 t2 h1 h2 hs

/-- Witness for `c10_amended_lex_order`: two timestamps one minute
apart. -/
theorem c10_amended_lex_order_witness :
    (valid_timestamp ⟨2024, 3, 5, 10, 30, 0⟩
      ∧ valid_timestamp ⟨2024, 3, 5, 10, 31, 0⟩
      ∧ (Timestamp.mk 2024 3 5 10 30 0).second = (Timestamp.mk 2024 3 5 10 31 0).second)
    ∧ (format_datetime ⟨2024, 3, 5, 10, 30, 0⟩ < format_datetime ⟨2024, 3, 5, 10, 31, 0⟩
        ↔ chronLt ⟨2024, 3, 5, 10, 30, 0⟩ ⟨2024, 3, 5, 10, 31, 0⟩) :=
  ⟨⟨by decide, by decide, rfl⟩,
    c10_amended_lex_order ⟨2024, 3, 5, 10, 30, 0⟩ ⟨2024, 3, 5, 10, 31, 0⟩
      (by decide) (by decide) rfl⟩

/-- Claim C10, counterexample: two creation timestamps 30 seconds apart in
the same minute are chronologically ordered but format to the identical
string, so lexicographic order of the formatted strings does not equal
chronological order of the underlying datetimes. -/
theorem c10_counterexample :
    chronLt ⟨2024, 3, 5, 10, 30, 15⟩ ⟨2024, 3, 5, 10, 30, 45⟩
    ∧ format_datetime ⟨2024, 3, 5, 10, 30, 15⟩
        = format_datetime ⟨2024, 3, 5, 10, 30, 45⟩
    ∧ ¬ (format_datetime ⟨2024, 3, 5, 10, 30, 15⟩
        < format_datetime ⟨2024, 3, 5, 10, 30, 45⟩) := by
  have heq : format_datetime ⟨2024, 3, 5, 10, 30, 15⟩
      = format_datetime ⟨2024, 3, 5, 10, 30, 45⟩ := rfl
  refine ⟨by decide, heq, ?_⟩
  rw [heq]
  exact lt_irrefl _

end EthVideoz
